import Mathlib

/-!
Verification of the archive store of `bevy_asset_tar` (src/archive.rs,
src/lib.rs), shallowly embedded: `PathBuf` values become their component
lists (Rust path equality and hashing are component-based), the
`HashMap`/`HashSet` of `Archive` become association lists with the same
lookup/insert semantics, and the `&mut self` threading of
`Archive::read_tar` becomes explicit state passing that also returns the
mutated store when the entry loop aborts with an error.
-/

namespace BevyAssetTar

/-- Path segment, mirroring `std::path::Component` for the paths that occur
as tar entry names. -/
inductive Seg where
  | rootDir
  | curDir
  | parentDir
  | normal (s : String)
  deriving DecidableEq

/-- A `PathBuf`, represented by its component list. -/
abbrev Pathb := List Seg

/-- A `Vec<u8>` content buffer. -/
abbrev Bytes := List Nat

/-- `tar::EntryType`, collapsed to the cases `read_tar` distinguishes. -/
inductive EntryType where
  | regular
  | directory
  | symlink
  | otherKind
  deriving DecidableEq

/-- One parsed tar entry: its name, type and content. -/
structure TarEntry where
  path : Pathb
  etype : EntryType
  content : Bytes
  deriving DecidableEq

/-- One item of `tar.entries()`: a parsed entry, or a per-entry io failure
(the `entry?`, `entry.path()?` or `entry.read_to_end(..)?` calls), tagged
by an opaque error code. -/
abbrev TarItem := Except Nat TarEntry

/-- The parse of a tar byte buffer: the initial `tar.entries()?` call may
itself fail. -/
abbrev TarInput := Except Nat (List TarItem)

/-- The distinguishable `std::io::Error` values produced by archive.rs:
`ErrorKind::NotFound` carrying the path, the `Error::other` not-a-directory
message, the `Error::other` unexpected-entry-type message, and propagated
io errors from the tar and gzip readers. -/
inductive Err where
  | notFound (p : Pathb)
  | notADirectory (p : Pathb)
  | unsupportedEntryKind (t : EntryType)
  | ioErr (code : Nat)
  deriving DecidableEq

/-- `path.strip_prefix("./")`: succeeds exactly when the first component is
`CurDir`, removing it; otherwise the path is kept unchanged. -/
def stripDot : Pathb → Pathb
  | Seg.curDir :: rest => rest
  | p => p

/-- `HashMap::get` on the files map (association-list model). -/
def filesGet : List (Pathb × Bytes) → Pathb → Option Bytes
  | [], _ => none
  | q :: rest, p => if q.1 = p then some q.2 else filesGet rest p

/-- `HashMap::insert` on the files map: replace the binding if present. -/
def filesInsert : List (Pathb × Bytes) → Pathb → Bytes → List (Pathb × Bytes)
  | [], p, v => [(p, v)]
  | q :: rest, p, v => if q.1 = p then (p, v) :: rest else q :: filesInsert rest p v

/-- The key list of the files map. -/
def keysL (fs : List (Pathb × Bytes)) : List Pathb := fs.map Prod.fst

/-- `HashSet::insert` on the dirs set. -/
def dirsInsert (ds : List Pathb) (p : Pathb) : List Pathb :=
  if p ∈ ds then ds else p :: ds

/-- The `Archive { files, dirs }` store. -/
structure Archive where
  files : List (Pathb × Bytes)
  dirs : List Pathb
  deriving DecidableEq

/-- `Archive::new()`. -/
def Archive.new : Archive := ⟨[], []⟩

/-- The entry loop of `Archive::read_tar`, threading the mutable `self`:
returns the final store together with the error if the loop aborted.
An entry whose normalized path is empty is skipped; a regular file is
inserted into `files` (overwriting), a directory into `dirs`; any other
entry type aborts the loop with the unexpected-file-type error, the store
keeping whatever was inserted before that entry. -/
def readTarEntries : Archive → List TarItem → Archive × Option Err
  | a, [] => (a, none)
  | a, Except.error e :: _ => (a, some (Err.ioErr e))
  | a, Except.ok entry :: rest =>
    if stripDot entry.path = [] then readTarEntries a rest
    else if entry.etype = EntryType.regular then
      readTarEntries ⟨filesInsert a.files (stripDot entry.path) entry.content, a.dirs⟩ rest
    else if entry.etype = EntryType.directory then
      readTarEntries ⟨a.files, dirsInsert a.dirs (stripDot entry.path)⟩ rest
    else (a, some (Err.unsupportedEntryKind entry.etype))

/-- `Archive::read_tar`. -/
def Archive.read_tar (a : Archive) (input : TarInput) : Archive × Option Err :=
  match input with
  | Except.error e => (a, some (Err.ioErr e))
  | Except.ok items => readTarEntries a items

/-- `Archive::read_tar_gz`: inflate the whole buffer first — an inflation
failure aborts before any tar entry is touched — then delegate to
`read_tar`. Its argument is the result of inflating and then parsing the
buffer: inflation failure, or the parse of the inflated bytes. -/
def Archive.read_tar_gz (a : Archive) (g : Except Nat TarInput) : Archive × Option Err :=
  match g with
  | Except.error e => (a, some (Err.ioErr e))
  | Except.ok t => a.read_tar t

/-- The decode input of one `append` call: the `ArchiveFileKind` tag
together with the parse of the supplied bytes under that kind. -/
inductive AppendInput where
  | tar (t : TarInput)
  | targz (g : Except Nat TarInput)

/-- `Archive::append`. -/
def Archive.append (a : Archive) (i : AppendInput) : Archive × Option Err :=
  match i with
  | AppendInput.tar t => a.read_tar t
  | AppendInput.targz g => a.read_tar_gz g

/-- `Archive::read_file`. -/
def Archive.read_file (a : Archive) (p : Pathb) : Except Err Bytes :=
  match filesGet a.files p with
  | some d => Except.ok d
  | none => Except.error (Err.notFound p)

/-- `Archive::is_dir`. -/
def Archive.is_dir (a : Archive) (p : Pathb) : Except Err Bool :=
  if p ∈ a.dirs then Except.ok true
  else if p ∈ keysL a.files then Except.ok false
  else Except.error (Err.notFound p)

/-- `Path::parent`: drop the last component; `None` for the empty path and
for a path that terminates in a root. -/
def parentOf : Pathb → Option Pathb
  | [] => none
  | [Seg.rootDir] => none
  | p => some p.dropLast

/-- The child collection loop of `Archive::read_dir`: file keys first, then
dirs, keeping every stored path whose immediate parent equals `p`. -/
def childrenOf (a : Archive) (p : Pathb) : List Pathb :=
  (keysL a.files).filter (fun q => decide (parentOf q = some p)) ++
    a.dirs.filter (fun q => decide (parentOf q = some p))

/-- `Archive::read_dir`. -/
def Archive.read_dir (a : Archive) (p : Pathb) : Except Err (List Pathb) :=
  match a.is_dir p with
  | Except.error e => Except.error e
  | Except.ok false => Except.error (Err.notADirectory p)
  | Except.ok true => Except.ok (childrenOf a p)

/-- An entry-stream item that `read_tar` processes without failing: a parsed
entry that is skipped (empty normalized path) or has a supported type. -/
def itemOk : TarItem → Bool
  | Except.error _ => false
  | Except.ok e =>
    decide (stripDot e.path = []) || decide (e.etype = EntryType.regular) ||
      decide (e.etype = EntryType.directory)

/-- Content of the last regular-file entry of a stream whose normalized,
nonempty path is `p`. -/
def lastRegContent : List TarItem → Pathb → Option Bytes
  | [], _ => none
  | Except.error _ :: rest, p => lastRegContent rest p
  | Except.ok e :: rest, p =>
    match lastRegContent rest p with
    | some c => some c
    | none =>
      if e.etype = EntryType.regular ∧ stripDot e.path = p ∧ p ≠ [] then some e.content
      else none

/-- Normalized paths of the regular-file entries of a stream. -/
def regPaths : List TarItem → List Pathb
  | [] => []
  | Except.error _ :: rest => regPaths rest
  | Except.ok e :: rest =>
    if e.etype = EntryType.regular ∧ stripDot e.path ≠ [] then
      stripDot e.path :: regPaths rest
    else regPaths rest

/-- Normalized paths of the directory entries of a stream. -/
def dirPaths : List TarItem → List Pathb
  | [] => []
  | Except.error _ :: rest => dirPaths rest
  | Except.ok e :: rest =>
    if e.etype = EntryType.directory ∧ stripDot e.path ≠ [] then
      stripDot e.path :: dirPaths rest
    else dirPaths rest

/-- The entry items an append input can contribute to the store. -/
def inputItems : AppendInput → List TarItem
  | AppendInput.tar (Except.ok items) => items
  | AppendInput.tar (Except.error _) => []
  | AppendInput.targz (Except.ok (Except.ok items)) => items
  | AppendInput.targz (Except.ok (Except.error _)) => []
  | AppendInput.targz (Except.error _) => []

/-- Normalized regular-file paths over a whole sequence of append inputs. -/
def allRegPaths : List AppendInput → List Pathb
  | [] => []
  | i :: rest => regPaths (inputItems i) ++ allRegPaths rest

/-- Normalized directory paths over a whole sequence of append inputs. -/
def allDirPaths : List AppendInput → List Pathb
  | [] => []
  | i :: rest => dirPaths (inputItems i) ++ allDirPaths rest

/-- Fold a sequence of `append` calls over a store, keeping the mutated
store whether or not each call failed, as the loader does. -/
def appendAll : Archive → List AppendInput → Archive
  | a, [] => a
  | a, i :: rest => appendAll (a.append i).1 rest

/-- The stores reachable from `Archive::new()` by any sequence of `append`
calls, successful or not. -/
inductive Reachable : Archive → Prop where
  | new : Reachable Archive.new
  | append (a : Archive) (i : AppendInput) : Reachable a → Reachable (a.append i).1

/-- Paths that survive entry normalization unchanged: nonempty, with no
leading `./` component. -/
def isNormalized : Pathb → Bool
  | [] => false
  | Seg.curDir :: _ => false
  | _ => true

/-- A container regular-file entry with its content. -/
def mkFileEntry (pc : Pathb × Bytes) : TarItem :=
  Except.ok ⟨pc.1, EntryType.regular, pc.2⟩

/-- A container directory entry. -/
def mkDirEntry (p : Pathb) : TarItem :=
  Except.ok ⟨p, EntryType.directory, []⟩

/-- First-of-two option choice, used to state how a decode pass layers new
file contents over older ones. -/
def oor (o1 o2 : Option Bytes) : Option Bytes :=
  match o1 with
  | some c => some c
  | none => o2

/-- The entry stream of a well-formed container: regular-file entries `fs`
(with their contents) followed by directory entries `ds`. -/
def wellFormedInput (fs : List (Pathb × Bytes)) (ds : List Pathb) : List TarItem :=
  fs.map mkFileEntry ++ ds.map mkDirEntry

theorem oor_none_right (o : Option Bytes) : oor o none = o := by
  cases o <;> rfl

theorem stripDot_eq_self {p : Pathb} (h : p.head? ≠ some Seg.curDir) : stripDot p = p := by
  cases p with
  | nil => rfl
  | cons s rest => cases s <;> simp_all [stripDot]

theorem stripDot_of_isNormalized {p : Pathb} (h : isNormalized p = true) : stripDot p = p := by
  cases p with
  | nil => rfl
  | cons s rest => cases s <;> simp_all [stripDot, isNormalized]

theorem ne_nil_of_isNormalized {p : Pathb} (h : isNormalized p = true) : p ≠ [] := by
  cases p with
  | nil => simp [isNormalized] at h
  | cons s rest => simp

theorem filesGet_insert (fs : List (Pathb × Bytes)) (p q : Pathb) (v : Bytes) :
    filesGet (filesInsert fs p v) q = if q = p then some v else filesGet fs q := by
  induction fs with
  | nil =>
    by_cases hq : q = p <;> simp [filesInsert, filesGet, hq]
    exact fun h => absurd h.symm hq
  | cons r rest ih =>
    by_cases hr : r.1 = p <;> by_cases hq : q = p <;>
      simp_all [filesInsert, filesGet] <;>
      by_cases hrq : r.1 = q <;> simp_all

theorem keysL_insert (fs : List (Pathb × Bytes)) (p q : Pathb) (v : Bytes) :
    q ∈ keysL (filesInsert fs p v) ↔ q = p ∨ q ∈ keysL fs := by
  induction fs with
  | nil => simp [filesInsert, keysL]
  | cons r rest ih =>
    by_cases hr : r.1 = p <;> simp_all [filesInsert, keysL] <;> tauto

theorem filesGet_eq_none (fs : List (Pathb × Bytes)) (p : Pathb) :
    filesGet fs p = none ↔ p ∉ keysL fs := by
  induction fs with
  | nil => simp [filesGet, keysL]
  | cons r rest ih =>
    by_cases hr : r.1 = p
    · subst hr
      simp [filesGet, keysL]
    · have hr' : ¬p = r.1 := fun h => hr h.symm
      simp [filesGet, keysL, hr, hr', ih]

theorem mem_keysL_of_filesGet_some {fs : List (Pathb × Bytes)} {p : Pathb} {v : Bytes}
    (h : filesGet fs p = some v) : p ∈ keysL fs := by
  by_contra hn
  rw [(filesGet_eq_none fs p).2 hn] at h
  cases h

theorem dirsInsert_mem (ds : List Pathb) (p q : Pathb) :
    q ∈ dirsInsert ds p ↔ q = p ∨ q ∈ ds := by
  unfold dirsInsert
  split <;> simp_all

theorem readTarEntries_cons_err (e : Nat) (a : Archive) (rest : List TarItem) :
    readTarEntries a (Except.error e :: rest) = (a, some (Err.ioErr e)) := by
  simp [readTarEntries]

theorem readTarEntries_cons_skip {entry : TarEntry} (hp : stripDot entry.path = [])
    (a : Archive) (rest : List TarItem) :
    readTarEntries a (Except.ok entry :: rest) = readTarEntries a rest := by
  simp [readTarEntries, hp]

theorem readTarEntries_cons_reg {entry : TarEntry} (hp : ¬stripDot entry.path = [])
    (hr : entry.etype = EntryType.regular) (a : Archive) (rest : List TarItem) :
    readTarEntries a (Except.ok entry :: rest) =
      readTarEntries ⟨filesInsert a.files (stripDot entry.path) entry.content, a.dirs⟩ rest := by
  simp [readTarEntries, hp, hr]

theorem readTarEntries_cons_dir {entry : TarEntry} (hp : ¬stripDot entry.path = [])
    (hd : entry.etype = EntryType.directory) (a : Archive) (rest : List TarItem) :
    readTarEntries a (Except.ok entry :: rest) =
      readTarEntries ⟨a.files, dirsInsert a.dirs (stripDot entry.path)⟩ rest := by
  simp [readTarEntries, hp, hd]

theorem readTarEntries_cons_bad {entry : TarEntry} (hp : ¬stripDot entry.path = [])
    (hr : ¬entry.etype = EntryType.regular) (hd : ¬entry.etype = EntryType.directory)
    (a : Archive) (rest : List TarItem) :
    readTarEntries a (Except.ok entry :: rest) =
      (a, some (Err.unsupportedEntryKind entry.etype)) := by
  simp [readTarEntries, hp, hr, hd]

theorem itemOk_ok_iff {entry : TarEntry} :
    itemOk (Except.ok entry) = true ↔
      stripDot entry.path = [] ∨ entry.etype = EntryType.regular ∨
        entry.etype = EntryType.directory := by
  simp [itemOk]
  exact or_assoc

theorem lastRegContent_cons_ok (e : TarEntry) (rest : List TarItem) (p : Pathb) :
    lastRegContent (Except.ok e :: rest) p =
      oor (lastRegContent rest p)
        (if e.etype = EntryType.regular ∧ stripDot e.path = p ∧ p ≠ [] then some e.content
         else none) := by
  cases h : lastRegContent rest p <;> simp [lastRegContent, h, oor]

theorem readTarEntries_append_eq (l1 l2 : List TarItem) (a : Archive)
    (h : (readTarEntries a l1).2 = none) :
    readTarEntries a (l1 ++ l2) = readTarEntries (readTarEntries a l1).1 l2 := by
  induction l1 generalizing a with
  | nil => simp [readTarEntries]
  | cons it rest ih =>
    cases it with
    | error e => rw [readTarEntries_cons_err] at h; cases h
    | ok entry =>
      by_cases hp : stripDot entry.path = []
      · rw [List.cons_append, readTarEntries_cons_skip hp, readTarEntries_cons_skip hp]
        rw [readTarEntries_cons_skip hp] at h
        exact ih a h
      · by_cases hr : entry.etype = EntryType.regular
        · rw [List.cons_append, readTarEntries_cons_reg hp hr, readTarEntries_cons_reg hp hr]
          rw [readTarEntries_cons_reg hp hr] at h
          exact ih _ h
        · by_cases hd : entry.etype = EntryType.directory
          · rw [List.cons_append, readTarEntries_cons_dir hp hd, readTarEntries_cons_dir hp hd]
            rw [readTarEntries_cons_dir hp hd] at h
            exact ih _ h
          · rw [readTarEntries_cons_bad hp hr hd] at h
            cases h

theorem readTarEntries_ok_of_itemOk (items : List TarItem) (a : Archive)
    (h : ∀ it ∈ items, itemOk it = true) :
    (readTarEntries a items).2 = none := by
  induction items generalizing a with
  | nil => simp [readTarEntries]
  | cons it rest ih =>
    have hrest : ∀ it ∈ rest, itemOk it = true := fun x hx => h x (List.mem_cons_of_mem _ hx)
    cases it with
    | error e => exact absurd (h _ (List.mem_cons_self _ _)) (by simp [itemOk])
    | ok entry =>
      have hhead := itemOk_ok_iff.1 (h _ (List.mem_cons_self _ _))
      by_cases hp : stripDot entry.path = []
      · rw [readTarEntries_cons_skip hp]
        exact ih _ hrest
      · rcases hhead with hh | hr | hd
        · exact absurd hh hp
        · rw [readTarEntries_cons_reg hp hr]
          exact ih _ hrest
        · rw [readTarEntries_cons_dir hp hd]
          exact ih _ hrest

theorem oor_some (c : Bytes) (o : Option Bytes) : oor (some c) o = some c := rfl

theorem oor_assoc (o1 o2 o3 : Option Bytes) : oor (oor o1 o2) o3 = oor o1 (oor o2 o3) := by
  cases o1 <;> rfl

theorem lastRegContent_cons_err (e : Nat) (rest : List TarItem) (p : Pathb) :
    lastRegContent (Except.error e :: rest) p = lastRegContent rest p := rfl

theorem regPaths_cons_ok (e : TarEntry) (rest : List TarItem) :
    regPaths (Except.ok e :: rest) =
      if e.etype = EntryType.regular ∧ stripDot e.path ≠ [] then
        stripDot e.path :: regPaths rest
      else regPaths rest := rfl

theorem dirPaths_cons_ok (e : TarEntry) (rest : List TarItem) :
    dirPaths (Except.ok e :: rest) =
      if e.etype = EntryType.directory ∧ stripDot e.path ≠ [] then
        stripDot e.path :: dirPaths rest
      else dirPaths rest := rfl

theorem filesGet_readTarEntries (items : List TarItem) (a : Archive) (p : Pathb)
    (h : ∀ it ∈ items, itemOk it = true) :
    filesGet (readTarEntries a items).1.files p =
      oor (lastRegContent items p) (filesGet a.files p) := by
  induction items generalizing a with
  | nil => simp [readTarEntries, lastRegContent, oor]
  | cons it rest ih =>
    have hrest : ∀ x ∈ rest, itemOk x = true := fun x hx => h x (List.mem_cons_of_mem _ hx)
    cases it with
    | error e => exact absurd (h _ (List.mem_cons_self _ _)) (by simp [itemOk])
    | ok entry =>
      have hhead := itemOk_ok_iff.1 (h _ (List.mem_cons_self _ _))
      rw [lastRegContent_cons_ok]
      by_cases hp : stripDot entry.path = []
      · have hcond : ¬(entry.etype = EntryType.regular ∧ stripDot entry.path = p ∧ p ≠ []) := by
          rintro ⟨-, h2, h3⟩
          exact h3 (h2 ▸ hp)
        rw [readTarEntries_cons_skip hp, ih _ hrest, if_neg hcond, oor_none_right]
      · rcases hhead with hh | hr | hd
        · exact absurd hh hp
        · rw [readTarEntries_cons_reg hp hr, ih _ hrest]
          cases hlr : lastRegContent rest p with
          | some c => rw [oor_some, oor_some, oor_some]
          | none =>
            show oor none (filesGet (filesInsert a.files (stripDot entry.path) entry.content) p) = _
            rw [show (∀ o, oor none o = o) from fun o => rfl]
            rw [show (∀ o, oor none o = o) from fun o => rfl]
            rw [filesGet_insert]
            by_cases hpp : p = stripDot entry.path
            · rw [if_pos hpp, if_pos ⟨hr, hpp.symm, fun hnil => hp (hpp ▸ hnil)⟩, oor_some]
            · rw [if_neg hpp, if_neg (fun hc => hpp hc.2.1.symm)]
              rfl
        · have hcond : ¬(entry.etype = EntryType.regular ∧ stripDot entry.path = p ∧ p ≠ []) := by
            rintro ⟨h1, -, -⟩
            rw [hd] at h1
            exact EntryType.noConfusion h1
          rw [readTarEntries_cons_dir hp hd, ih _ hrest, if_neg hcond, oor_none_right]

theorem dirs_readTarEntries (items : List TarItem) (a : Archive) (q : Pathb)
    (h : ∀ it ∈ items, itemOk it = true) :
    (q ∈ (readTarEntries a items).1.dirs ↔ q ∈ dirPaths items ∨ q ∈ a.dirs) := by
  induction items generalizing a with
  | nil => simp [readTarEntries, dirPaths]
  | cons it rest ih =>
    have hrest : ∀ x ∈ rest, itemOk x = true := fun x hx => h x (List.mem_cons_of_mem _ hx)
    cases it with
    | error e => exact absurd (h _ (List.mem_cons_self _ _)) (by simp [itemOk])
    | ok entry =>
      have hhead := itemOk_ok_iff.1 (h _ (List.mem_cons_self _ _))
      rw [dirPaths_cons_ok]
      by_cases hp : stripDot entry.path = []
      · have hcond : ¬(entry.etype = EntryType.directory ∧ stripDot entry.path ≠ []) :=
          fun hc => hc.2 hp
        rw [readTarEntries_cons_skip hp, ih _ hrest, if_neg hcond]
      · rcases hhead with hh | hr | hd
        · exact absurd hh hp
        · have hcond : ¬(entry.etype = EntryType.directory ∧ stripDot entry.path ≠ []) := by
            rintro ⟨h1, -⟩
            rw [hr] at h1
            exact EntryType.noConfusion h1
          rw [readTarEntries_cons_reg hp hr, ih _ hrest, if_neg hcond]
        · rw [readTarEntries_cons_dir hp hd, ih _ hrest, if_pos ⟨hd, hp⟩]
          show q ∈ dirPaths rest ∨ q ∈ dirsInsert a.dirs (stripDot entry.path) ↔ _
          rw [dirsInsert_mem]
          simp [List.mem_cons]
          tauto

theorem keysL_readTarEntries_subset (items : List TarItem) (a : Archive) (q : Pathb)
    (h : q ∈ keysL (readTarEntries a items).1.files) :
    q ∈ regPaths items ∨ q ∈ keysL a.files := by
  induction items generalizing a with
  | nil => right; simpa [readTarEntries] using h
  | cons it rest ih =>
    cases it with
    | error e => right; rw [readTarEntries_cons_err] at h; exact h
    | ok entry =>
      rw [regPaths_cons_ok]
      by_cases hp : stripDot entry.path = []
      · have hcond : ¬(entry.etype = EntryType.regular ∧ stripDot entry.path ≠ []) :=
          fun hc => hc.2 hp
        rw [if_neg hcond]
        rw [readTarEntries_cons_skip hp] at h
        exact ih _ h
      · by_cases hr : entry.etype = EntryType.regular
        · rw [if_pos ⟨hr, hp⟩]
          rw [readTarEntries_cons_reg hp hr] at h
          rcases ih _ h with h1 | h2
          · exact Or.inl (List.mem_cons_of_mem _ h1)
          · rcases (keysL_insert _ _ _ _).1 h2 with h3 | h4
            · exact Or.inl (h3 ▸ List.mem_cons_self _ _)
            · exact Or.inr h4
        · have hcond : ¬(entry.etype = EntryType.regular ∧ stripDot entry.path ≠ []) :=
            fun hc => hr hc.1
          rw [if_neg hcond]
          by_cases hd : entry.etype = EntryType.directory
          · rw [readTarEntries_cons_dir hp hd] at h
            exact ih ⟨a.files, dirsInsert a.dirs (stripDot entry.path)⟩ h
          · rw [readTarEntries_cons_bad hp hr hd] at h
            exact Or.inr h

theorem dirs_readTarEntries_subset (items : List TarItem) (a : Archive) (q : Pathb)
    (h : q ∈ (readTarEntries a items).1.dirs) :
    q ∈ dirPaths items ∨ q ∈ a.dirs := by
  induction items generalizing a with
  | nil => right; simpa [readTarEntries] using h
  | cons it rest ih =>
    cases it with
    | error e => right; rw [readTarEntries_cons_err] at h; exact h
    | ok entry =>
      rw [dirPaths_cons_ok]
      by_cases hp : stripDot entry.path = []
      · have hcond : ¬(entry.etype = EntryType.directory ∧ stripDot entry.path ≠ []) :=
          fun hc => hc.2 hp
        rw [if_neg hcond]
        rw [readTarEntries_cons_skip hp] at h
        exact ih _ h
      · by_cases hd : entry.etype = EntryType.directory
        · rw [if_pos ⟨hd, hp⟩]
          rw [readTarEntries_cons_dir hp hd] at h
          rcases ih _ h with h1 | h2
          · exact Or.inl (List.mem_cons_of_mem _ h1)
          · rcases (dirsInsert_mem _ _ _).1 h2 with h3 | h4
            · exact Or.inl (h3 ▸ List.mem_cons_self _ _)
            · exact Or.inr h4
        · have hcond : ¬(entry.etype = EntryType.directory ∧ stripDot entry.path ≠ []) :=
            fun hc => hd hc.1
          rw [if_neg hcond]
          by_cases hr : entry.etype = EntryType.regular
          · rw [readTarEntries_cons_reg hp hr] at h
            exact ih ⟨filesInsert a.files (stripDot entry.path) entry.content, a.dirs⟩ h
          · rw [readTarEntries_cons_bad hp hr hd] at h
            exact Or.inr h

theorem lastRegContent_append (l1 l2 : List TarItem) (p : Pathb) :
    lastRegContent (l1 ++ l2) p = oor (lastRegContent l2 p) (lastRegContent l1 p) := by
  induction l1 with
  | nil =>
    rw [List.nil_append]
    exact (oor_none_right _).symm
  | cons it rest ih =>
    cases it with
    | error e => rw [List.cons_append, lastRegContent_cons_err, lastRegContent_cons_err, ih]
    | ok entry =>
      rw [List.cons_append, lastRegContent_cons_ok, lastRegContent_cons_ok, ih, oor_assoc]

theorem regPaths_append (l1 l2 : List TarItem) :
    regPaths (l1 ++ l2) = regPaths l1 ++ regPaths l2 := by
  induction l1 with
  | nil => rfl
  | cons it rest ih =>
    cases it with
    | error e =>
      show regPaths (rest ++ l2) = regPaths rest ++ regPaths l2
      exact ih
    | ok entry =>
      rw [List.cons_append, regPaths_cons_ok, regPaths_cons_ok]
      by_cases hc : entry.etype = EntryType.regular ∧ stripDot entry.path ≠ []
      · rw [if_pos hc, if_pos hc, ih, List.cons_append]
      · rw [if_neg hc, if_neg hc, ih]

theorem dirPaths_append (l1 l2 : List TarItem) :
    dirPaths (l1 ++ l2) = dirPaths l1 ++ dirPaths l2 := by
  induction l1 with
  | nil => rfl
  | cons it rest ih =>
    cases it with
    | error e =>
      show dirPaths (rest ++ l2) = dirPaths rest ++ dirPaths l2
      exact ih
    | ok entry =>
      rw [List.cons_append, dirPaths_cons_ok, dirPaths_cons_ok]
      by_cases hc : entry.etype = EntryType.directory ∧ stripDot entry.path ≠ []
      · rw [if_pos hc, if_pos hc, ih, List.cons_append]
      · rw [if_neg hc, if_neg hc, ih]

theorem nil_not_mem_regPaths (items : List TarItem) : [] ∉ regPaths items := by
  induction items with
  | nil => simp [regPaths]
  | cons it rest ih =>
    cases it with
    | error e => exact ih
    | ok entry =>
      rw [regPaths_cons_ok]
      by_cases hc : entry.etype = EntryType.regular ∧ stripDot entry.path ≠ []
      · rw [if_pos hc]
        intro hmem
        rcases List.mem_cons.1 hmem with h1 | h2
        · exact hc.2 h1.symm
        · exact ih h2
      · rw [if_neg hc]
        exact ih

theorem nil_not_mem_dirPaths (items : List TarItem) : [] ∉ dirPaths items := by
  induction items with
  | nil => simp [dirPaths]
  | cons it rest ih =>
    cases it with
    | error e => exact ih
    | ok entry =>
      rw [dirPaths_cons_ok]
      by_cases hc : entry.etype = EntryType.directory ∧ stripDot entry.path ≠ []
      · rw [if_pos hc]
        intro hmem
        rcases List.mem_cons.1 hmem with h1 | h2
        · exact hc.2 h1.symm
        · exact ih h2
      · rw [if_neg hc]
        exact ih

theorem itemOk_mkFileEntry (pc : Pathb × Bytes) : itemOk (mkFileEntry pc) = true := by
  simp [itemOk, mkFileEntry]

theorem itemOk_mkDirEntry (p : Pathb) : itemOk (mkDirEntry p) = true := by
  simp [itemOk, mkDirEntry]

theorem lastRegContent_cons_mkFile (pc : Pathb × Bytes) (rest : List TarItem) (p : Pathb) :
    lastRegContent (mkFileEntry pc :: rest) p =
      oor (lastRegContent rest p)
        (if stripDot pc.1 = p ∧ p ≠ [] then some pc.2 else none) := by
  show lastRegContent (Except.ok ⟨pc.1, EntryType.regular, pc.2⟩ :: rest) p = _
  rw [lastRegContent_cons_ok]
  simp

theorem lastRegContent_cons_mkDir (d : Pathb) (rest : List TarItem) (p : Pathb) :
    lastRegContent (mkDirEntry d :: rest) p = oor (lastRegContent rest p) none := by
  show lastRegContent (Except.ok ⟨d, EntryType.directory, []⟩ :: rest) p = _
  rw [lastRegContent_cons_ok]
  simp

theorem lastRegContent_mkDir (ds : List Pathb) (p : Pathb) :
    lastRegContent (ds.map mkDirEntry) p = none := by
  induction ds with
  | nil => rfl
  | cons d rest ih => rw [List.map_cons, lastRegContent_cons_mkDir, ih, oor_none_right]

theorem dirPaths_mkFile (fs : List (Pathb × Bytes)) :
    dirPaths (fs.map mkFileEntry) = [] := by
  induction fs with
  | nil => rfl
  | cons pc rest ih =>
    rw [List.map_cons]
    show dirPaths (Except.ok ⟨pc.1, EntryType.regular, pc.2⟩ :: List.map mkFileEntry rest) = []
    rw [dirPaths_cons_ok, if_neg (by simp)]
    exact ih

theorem regPaths_mkDir (ds : List Pathb) : regPaths (ds.map mkDirEntry) = [] := by
  induction ds with
  | nil => rfl
  | cons d rest ih =>
    rw [List.map_cons]
    show regPaths (Except.ok ⟨d, EntryType.directory, []⟩ :: List.map mkDirEntry rest) = []
    rw [regPaths_cons_ok, if_neg (by simp)]
    exact ih

theorem dirPaths_mkDir (ds : List Pathb) (h : ∀ d ∈ ds, isNormalized d = true) :
    dirPaths (ds.map mkDirEntry) = ds := by
  induction ds with
  | nil => rfl
  | cons d rest ih =>
    have hd := h d (List.mem_cons_self _ _)
    rw [List.map_cons]
    show dirPaths (Except.ok ⟨d, EntryType.directory, []⟩ :: List.map mkDirEntry rest) = d :: rest
    rw [dirPaths_cons_ok,
      if_pos ⟨rfl, by
        show stripDot d ≠ []
        rw [stripDot_of_isNormalized hd]
        exact ne_nil_of_isNormalized hd⟩]
    show stripDot d :: dirPaths (List.map mkDirEntry rest) = d :: rest
    rw [stripDot_of_isNormalized hd, ih (fun x hx => h x (List.mem_cons_of_mem _ hx))]

theorem lastRegContent_mkFile_not_mem (fs : List (Pathb × Bytes)) (p : Pathb)
    (h : p ∉ keysL fs) (hn : ∀ r ∈ fs, isNormalized r.1 = true) :
    lastRegContent (fs.map mkFileEntry) p = none := by
  induction fs with
  | nil => rfl
  | cons pc rest ih =>
    have hpc := hn pc (List.mem_cons_self _ _)
    simp only [keysL, List.map_cons, List.mem_cons] at h
    push_neg at h
    obtain ⟨h1, h2⟩ := h
    rw [List.map_cons, lastRegContent_cons_mkFile,
      ih h2 (fun r hr => hn r (List.mem_cons_of_mem _ hr))]
    have hcond : ¬(stripDot pc.1 = p ∧ p ≠ []) := by
      rintro ⟨hsp, -⟩
      rw [stripDot_of_isNormalized hpc] at hsp
      exact h1 hsp.symm
    rw [if_neg hcond]
    rfl

theorem lastRegContent_mkFile_mem (fs : List (Pathb × Bytes)) (pc : Pathb × Bytes)
    (hmem : pc ∈ fs) (hnodup : (keysL fs).Nodup) (hn : ∀ r ∈ fs, isNormalized r.1 = true) :
    lastRegContent (fs.map mkFileEntry) pc.1 = some pc.2 := by
  induction fs with
  | nil => cases hmem
  | cons r rest ih =>
    simp only [keysL, List.map_cons, List.nodup_cons] at hnodup
    obtain ⟨hnotin, hnd⟩ := hnodup
    have hnrest : ∀ x ∈ rest, isNormalized x.1 = true :=
      fun x hx => hn x (List.mem_cons_of_mem _ hx)
    rcases List.mem_cons.1 hmem with rfl | hmem'
    · have hr := hn pc (List.mem_cons_self _ _)
      rw [List.map_cons, lastRegContent_cons_mkFile,
        lastRegContent_mkFile_not_mem rest pc.1 hnotin hnrest]
      rw [if_pos ⟨stripDot_of_isNormalized hr, by
        intro hnil
        exact ne_nil_of_isNormalized hr hnil⟩]
      rfl
    · rw [List.map_cons, lastRegContent_cons_mkFile, ih hmem' hnd hnrest, oor_some]

theorem is_dir_true {a : Archive} {p : Pathb} (h : p ∈ a.dirs) :
    a.is_dir p = Except.ok true := by
  simp [Archive.is_dir, h]

theorem is_dir_false {a : Archive} {p : Pathb} (h1 : p ∉ a.dirs) (h2 : p ∈ keysL a.files) :
    a.is_dir p = Except.ok false := by
  simp [Archive.is_dir, h1, h2]

theorem is_dir_notFound {a : Archive} {p : Pathb} (h1 : p ∉ a.dirs) (h2 : p ∉ keysL a.files) :
    a.is_dir p = Except.error (Err.notFound p) := by
  simp [Archive.is_dir, h1, h2]

theorem read_file_of_filesGet {a : Archive} {p : Pathb} {c : Bytes}
    (h : filesGet a.files p = some c) : a.read_file p = Except.ok c := by
  simp [Archive.read_file, h]

theorem read_file_notFound {a : Archive} {p : Pathb}
    (h : filesGet a.files p = none) : a.read_file p = Except.error (Err.notFound p) := by
  simp [Archive.read_file, h]

theorem keysL_append_subset (a : Archive) (i : AppendInput) (q : Pathb)
    (h : q ∈ keysL (a.append i).1.files) :
    q ∈ regPaths (inputItems i) ∨ q ∈ keysL a.files := by
  cases i with
  | tar t =>
    cases t with
    | error e => exact Or.inr h
    | ok items => exact keysL_readTarEntries_subset items a q h
  | targz g =>
    cases g with
    | error e => exact Or.inr h
    | ok t =>
      cases t with
      | error e => exact Or.inr h
      | ok items => exact keysL_readTarEntries_subset items a q h

theorem dirs_append_subset (a : Archive) (i : AppendInput) (q : Pathb)
    (h : q ∈ (a.append i).1.dirs) :
    q ∈ dirPaths (inputItems i) ∨ q ∈ a.dirs := by
  cases i with
  | tar t =>
    cases t with
    | error e => exact Or.inr h
    | ok items => exact dirs_readTarEntries_subset items a q h
  | targz g =>
    cases g with
    | error e => exact Or.inr h
    | ok t =>
      cases t with
      | error e => exact Or.inr h
      | ok items => exact dirs_readTarEntries_subset items a q h

theorem keysL_appendAll_subset (inputs : List AppendInput) (a : Archive) (q : Pathb)
    (h : q ∈ keysL (appendAll a inputs).files) :
    q ∈ allRegPaths inputs ∨ q ∈ keysL a.files := by
  induction inputs generalizing a with
  | nil => exact Or.inr h
  | cons i rest ih =>
    rcases ih (a.append i).1 h with h1 | h2
    · refine Or.inl ?_
      show q ∈ regPaths (inputItems i) ++ allRegPaths rest
      exact List.mem_append.2 (Or.inr h1)
    · rcases keysL_append_subset a i q h2 with h3 | h4
      · refine Or.inl ?_
        show q ∈ regPaths (inputItems i) ++ allRegPaths rest
        exact List.mem_append.2 (Or.inl h3)
      · exact Or.inr h4

theorem dirs_appendAll_subset (inputs : List AppendInput) (a : Archive) (q : Pathb)
    (h : q ∈ (appendAll a inputs).dirs) :
    q ∈ allDirPaths inputs ∨ q ∈ a.dirs := by
  induction inputs generalizing a with
  | nil => exact Or.inr h
  | cons i rest ih =>
    rcases ih (a.append i).1 h with h1 | h2
    · refine Or.inl ?_
      show q ∈ dirPaths (inputItems i) ++ allDirPaths rest
      exact List.mem_append.2 (Or.inr h1)
    · rcases dirs_append_subset a i q h2 with h3 | h4
      · refine Or.inl ?_
        show q ∈ dirPaths (inputItems i) ++ allDirPaths rest
        exact List.mem_append.2 (Or.inl h3)
      · exact Or.inr h4

theorem readTarEntries_cons_congr (a : Archive) (e1 e2 : TarEntry) (rest : List TarItem)
    (hpath : stripDot e1.path = stripDot e2.path) (hty : e1.etype = e2.etype)
    (hc : e1.content = e2.content) :
    readTarEntries a (Except.ok e1 :: rest) = readTarEntries a (Except.ok e2 :: rest) := by
  simp [readTarEntries, hpath, hty, hc]

theorem reachable_nil_not_stored {a : Archive} (h : Reachable a) :
    [] ∉ keysL a.files ∧ [] ∉ a.dirs := by
  induction h with
  | new => exact ⟨by simp [Archive.new, keysL], by simp [Archive.new]⟩
  | append a i ha ih =>
    constructor
    · intro hmem
      rcases keysL_append_subset a i [] hmem with h1 | h2
      · exact nil_not_mem_regPaths _ h1
      · exact ih.1 h2
    · intro hmem
      rcases dirs_append_subset a i [] hmem with h1 | h2
      · exact nil_not_mem_dirPaths _ h1
      · exact ih.2 h2

/-- C1 counterexample: a tar stream holding a regular file "a" and then a
symlink "b" makes `append` fail with the unsupported-entry-kind error, yet
the store after the failed append differs from the store before it: the
file "a" inserted before the failing entry is retained. This refutes the
claim that a failed append contributes nothing to the store. -/
theorem C1_counterexample :
    (Archive.new.append (AppendInput.tar (Except.ok
        [Except.ok ⟨[Seg.normal "a"], EntryType.regular, [1]⟩,
         Except.ok ⟨[Seg.normal "b"], EntryType.symlink, []⟩]))).2 =
      some (Err.unsupportedEntryKind EntryType.symlink) ∧
    (Archive.new.append (AppendInput.tar (Except.ok
        [Except.ok ⟨[Seg.normal "a"], EntryType.regular, [1]⟩,
         Except.ok ⟨[Seg.normal "b"], EntryType.symlink, []⟩]))).1 ≠ Archive.new ∧
    filesGet (Archive.new.append (AppendInput.tar (Except.ok
        [Except.ok ⟨[Seg.normal "a"], EntryType.regular, [1]⟩,
         Except.ok ⟨[Seg.normal "b"], EntryType.symlink, []⟩]))).1.files
        [Seg.normal "a"] = some [1] := by
  refine ⟨rfl, ?_, rfl⟩
  decide

/-- C1 (amended): an entry whose type is neither regular-file nor directory
makes the decode call fail with the UnsupportedEntryKind error and stops
processing at that entry, but the append is not atomic: the store keeps the
entries processed before the failure point (a partial result is retained),
while nothing after the failing entry is processed. -/
theorem C1_append_stops_at_unsupported (a : Archive) (pre : List TarItem) (e : TarEntry)
    (rest : List TarItem)
    (hpre : ∀ it ∈ pre, itemOk it = true)
    (hr : ¬e.etype = EntryType.regular) (hd : ¬e.etype = EntryType.directory)
    (hpath : ¬stripDot e.path = []) :
    a.read_tar (Except.ok (pre ++ Except.ok e :: rest)) =
      ((readTarEntries a pre).1, some (Err.unsupportedEntryKind e.etype)) := by
  show readTarEntries a (pre ++ Except.ok e :: rest) = _
  rw [readTarEntries_append_eq _ _ _ (readTarEntries_ok_of_itemOk pre a hpre),
    readTarEntries_cons_bad hpath hr hd]

/-- C1 witness: the amended theorem applied to a concrete stream with a
well-typed prefix, a symlink entry, and a trailing entry. -/
theorem C1_witness :
    Archive.new.read_tar (Except.ok
        ([Except.ok ⟨[Seg.normal "a"], EntryType.regular, [1]⟩] ++
          Except.ok ⟨[Seg.normal "b"], EntryType.symlink, []⟩ ::
            [Except.ok ⟨[Seg.normal "c"], EntryType.regular, [2]⟩])) =
      ((readTarEntries Archive.new
          [Except.ok ⟨[Seg.normal "a"], EntryType.regular, [1]⟩]).1,
        some (Err.unsupportedEntryKind EntryType.symlink)) :=
  C1_append_stops_at_unsupported Archive.new
    [Except.ok ⟨[Seg.normal "a"], EntryType.regular, [1]⟩]
    ⟨[Seg.normal "b"], EntryType.symlink, []⟩
    [Except.ok ⟨[Seg.normal "c"], EntryType.regular, [2]⟩]
    (by decide) (by decide) (by decide) (by decide)

/-- C2 counterexample: one decode pass naming "a" first as a regular file
and then as a directory leaves "a" simultaneously a key of the files map
and a member of the dirs set: neither insertion removes the path from the
other container. This refutes the claimed invariant. -/
theorem C2_counterexample :
    [Seg.normal "a"] ∈ keysL (Archive.new.append (AppendInput.tar (Except.ok
        [Except.ok ⟨[Seg.normal "a"], EntryType.regular, [1]⟩,
         Except.ok ⟨[Seg.normal "a"], EntryType.directory, []⟩]))).1.files ∧
    [Seg.normal "a"] ∈ (Archive.new.append (AppendInput.tar (Except.ok
        [Except.ok ⟨[Seg.normal "a"], EntryType.regular, [1]⟩,
         Except.ok ⟨[Seg.normal "a"], EntryType.directory, []⟩]))).1.dirs := by
  decide

/-- C2 (amended): the files/dirs disjointness invariant holds for every
store built from `Archive::new()` by a sequence of appends, provided no
normalized path occurs both as a regular-file entry and as a directory
entry across the appended inputs; without that side condition the
invariant can be violated. -/
theorem C2_disjoint_of_inputs_disjoint (inputs : List AppendInput)
    (hdisj : ∀ p ∈ allRegPaths inputs, p ∉ allDirPaths inputs) :
    ∀ p ∈ keysL (appendAll Archive.new inputs).files,
      p ∉ (appendAll Archive.new inputs).dirs := by
  intro p hp hd
  have h1 : p ∈ allRegPaths inputs := by
    rcases keysL_appendAll_subset inputs Archive.new p hp with h | h
    · exact h
    · exact absurd h (by simp [Archive.new, keysL])
  have h2 : p ∈ allDirPaths inputs := by
    rcases dirs_appendAll_subset inputs Archive.new p hd with h | h
    · exact h
    · exact absurd h (by simp [Archive.new])
  exact hdisj p h1 h2

/-- C2 witness: the amended theorem applied to two concrete appends — one
plain tar defining file "a" and one gzipped tar defining directory "b" —
instantiated at the stored file key "a". -/
theorem C2_witness :
    [Seg.normal "a"] ∉ (appendAll Archive.new
        [AppendInput.tar (Except.ok [Except.ok ⟨[Seg.normal "a"], EntryType.regular, [1]⟩]),
         AppendInput.targz (Except.ok (Except.ok
           [Except.ok ⟨[Seg.normal "b"], EntryType.directory, []⟩]))]).dirs :=
  C2_disjoint_of_inputs_disjoint
    [AppendInput.tar (Except.ok [Except.ok ⟨[Seg.normal "a"], EntryType.regular, [1]⟩]),
     AppendInput.targz (Except.ok (Except.ok
       [Except.ok ⟨[Seg.normal "b"], EntryType.directory, []⟩]))]
    (by decide) [Seg.normal "a"] (by decide)

/-- C3 counterexample: `read_dir` on a path entirely unknown to an empty
store fails with the NotFound error propagated from `is_dir`, not with the
not-a-directory error, refuting the claim that the unknown-path case also
fails NotADirectory. -/
theorem C3_counterexample :
    Archive.new.read_dir [Seg.normal "x"] =
      Except.error (Err.notFound [Seg.normal "x"]) ∧
    Err.notFound [Seg.normal "x"] ≠ Err.notADirectory [Seg.normal "x"] :=
  ⟨rfl, by decide⟩

/-- C3 (amended): whenever `p` is not a directory marker, `read_dir p`
fails and never returns a listing (empty or otherwise): with the
not-a-directory error when `p` is a key of the files map, and with the
NotFound error when `p` is unknown to the store. -/
theorem C3_read_dir_fails_on_non_dir (a : Archive) (p : Pathb) (h : p ∉ a.dirs) :
    (p ∈ keysL a.files → a.read_dir p = Except.error (Err.notADirectory p)) ∧
    (p ∉ keysL a.files → a.read_dir p = Except.error (Err.notFound p)) ∧
    ∀ l, ¬a.read_dir p = Except.ok l := by
  refine ⟨fun hf => ?_, fun hf => ?_, fun l hl => ?_⟩
  · simp [Archive.read_dir, is_dir_false h hf]
  · simp [Archive.read_dir, is_dir_notFound h hf]
  · by_cases hf : p ∈ keysL a.files
    · simp [Archive.read_dir, is_dir_false h hf] at hl
    · simp [Archive.read_dir, is_dir_notFound h hf] at hl

/-- C3 witness: the amended theorem applied at a store holding the file
"x" queried at "x" (not-a-directory case), at the empty store queried at
"x" (NotFound case), and instantiated at the empty candidate listing. -/
theorem C3_witness :
    (Archive.new.append (AppendInput.tar (Except.ok
        [Except.ok ⟨[Seg.normal "x"], EntryType.regular, [7]⟩]))).1.read_dir
          [Seg.normal "x"] = Except.error (Err.notADirectory [Seg.normal "x"]) ∧
    Archive.new.read_dir [Seg.normal "x"] =
      Except.error (Err.notFound [Seg.normal "x"]) ∧
    ¬(Archive.new.append (AppendInput.tar (Except.ok
        [Except.ok ⟨[Seg.normal "x"], EntryType.regular, [7]⟩]))).1.read_dir
          [Seg.normal "x"] = Except.ok [] :=
  ⟨(C3_read_dir_fails_on_non_dir
      (Archive.new.append (AppendInput.tar (Except.ok
        [Except.ok ⟨[Seg.normal "x"], EntryType.regular, [7]⟩]))).1
      [Seg.normal "x"] (by decide)).1 (by decide),
   (C3_read_dir_fails_on_non_dir Archive.new [Seg.normal "x"] (by decide)).2.1 (by decide),
   (C3_read_dir_fails_on_non_dir
      (Archive.new.append (AppendInput.tar (Except.ok
        [Except.ok ⟨[Seg.normal "x"], EntryType.regular, [7]⟩]))).1
      [Seg.normal "x"] (by decide)).2.2 []⟩

/-- C4: decoding a well-formed container — normalized, duplicate-free file
entries `fs` disjoint from directory entries `ds` — into a fresh store
succeeds, `read_file` returns the exact original bytes for every file
entry, `is_dir` is true exactly on `ds` and false exactly on the file
keys, and both queries fail NotFound on every other path. -/
theorem C4_decode_characterization (fs : List (Pathb × Bytes)) (ds : List Pathb)
    (hfn : ∀ pc ∈ fs, isNormalized pc.1 = true)
    (hdn : ∀ d ∈ ds, isNormalized d = true)
    (hnodup : (keysL fs).Nodup)
    (hdisj : ∀ pc ∈ fs, pc.1 ∉ ds) :
    (Archive.new.read_tar (Except.ok (wellFormedInput fs ds))).2 = none ∧
    (∀ pc ∈ fs,
      (Archive.new.read_tar (Except.ok (wellFormedInput fs ds))).1.read_file pc.1 =
        Except.ok pc.2 ∧
      (Archive.new.read_tar (Except.ok (wellFormedInput fs ds))).1.is_dir pc.1 =
        Except.ok false) ∧
    (∀ d ∈ ds,
      (Archive.new.read_tar (Except.ok (wellFormedInput fs ds))).1.is_dir d =
        Except.ok true) ∧
    (∀ q, q ∉ keysL fs → q ∉ ds →
      (Archive.new.read_tar (Except.ok (wellFormedInput fs ds))).1.read_file q =
        Except.error (Err.notFound q) ∧
      (Archive.new.read_tar (Except.ok (wellFormedInput fs ds))).1.is_dir q =
        Except.error (Err.notFound q)) := by
  have hgood : ∀ it ∈ wellFormedInput fs ds, itemOk it = true := by
    intro it hit
    rcases List.mem_append.1 hit with h | h
    · obtain ⟨pc, -, rfl⟩ := List.mem_map.1 h
      exact itemOk_mkFileEntry pc
    · obtain ⟨d, -, rfl⟩ := List.mem_map.1 h
      exact itemOk_mkDirEntry d
  have hget : ∀ q, filesGet (readTarEntries Archive.new (wellFormedInput fs ds)).1.files q =
      lastRegContent (fs.map mkFileEntry) q := by
    intro q
    rw [filesGet_readTarEntries _ _ _ hgood]
    show oor (lastRegContent (fs.map mkFileEntry ++ ds.map mkDirEntry) q) (filesGet [] q) = _
    rw [lastRegContent_append, lastRegContent_mkDir]
    show oor (oor none (lastRegContent (fs.map mkFileEntry) q)) none = _
    rw [oor_none_right]
    rfl
  have hdirs : ∀ q, (q ∈ (readTarEntries Archive.new (wellFormedInput fs ds)).1.dirs ↔
      q ∈ ds) := by
    intro q
    rw [dirs_readTarEntries _ _ _ hgood]
    rw [show dirPaths (wellFormedInput fs ds) = ds from by
      show dirPaths (fs.map mkFileEntry ++ ds.map mkDirEntry) = ds
      rw [dirPaths_append, dirPaths_mkFile, dirPaths_mkDir ds hdn, List.nil_append]]
    simp [Archive.new]
  refine ⟨readTarEntries_ok_of_itemOk _ _ hgood, ?_, ?_, ?_⟩
  · intro pc hpc
    have hv : filesGet (readTarEntries Archive.new (wellFormedInput fs ds)).1.files pc.1 =
        some pc.2 := by
      rw [hget, lastRegContent_mkFile_mem fs pc hpc hnodup hfn]
    have hnd : pc.1 ∉ (readTarEntries Archive.new (wellFormedInput fs ds)).1.dirs := by
      rw [hdirs]
      exact hdisj pc hpc
    exact ⟨read_file_of_filesGet hv, is_dir_false hnd (mem_keysL_of_filesGet_some hv)⟩
  · intro d hd
    exact is_dir_true ((hdirs d).2 hd)
  · intro q hq1 hq2
    have hv : filesGet (readTarEntries Archive.new (wellFormedInput fs ds)).1.files q =
        none := by
      rw [hget, lastRegContent_mkFile_not_mem fs q hq1 hfn]
    have hnd : q ∉ (readTarEntries Archive.new (wellFormedInput fs ds)).1.dirs := by
      rw [hdirs]
      exact hq2
    exact ⟨read_file_notFound hv, is_dir_notFound hnd ((filesGet_eq_none _ _).1 hv)⟩

/-- C4 witness: the characterization applied to the container with the
directory "dir" and the file "dir/a" with content [104, 105], evaluated at
the file path, the directory path, and the unknown path "zzz". -/
theorem C4_witness :
    (Archive.new.read_tar (Except.ok (wellFormedInput
        [([Seg.normal "dir", Seg.normal "a"], [104, 105])] [[Seg.normal "dir"]]))).2 =
      none ∧
    (Archive.new.read_tar (Except.ok (wellFormedInput
        [([Seg.normal "dir", Seg.normal "a"], [104, 105])] [[Seg.normal "dir"]]))).1.read_file
        [Seg.normal "dir", Seg.normal "a"] = Except.ok [104, 105] ∧
    (Archive.new.read_tar (Except.ok (wellFormedInput
        [([Seg.normal "dir", Seg.normal "a"], [104, 105])] [[Seg.normal "dir"]]))).1.is_dir
        [Seg.normal "dir", Seg.normal "a"] = Except.ok false ∧
    (Archive.new.read_tar (Except.ok (wellFormedInput
        [([Seg.normal "dir", Seg.normal "a"], [104, 105])] [[Seg.normal "dir"]]))).1.is_dir
        [Seg.normal "dir"] = Except.ok true ∧
    (Archive.new.read_tar (Except.ok (wellFormedInput
        [([Seg.normal "dir", Seg.normal "a"], [104, 105])] [[Seg.normal "dir"]]))).1.read_file
        [Seg.normal "zzz"] = Except.error (Err.notFound [Seg.normal "zzz"]) ∧
    (Archive.new.read_tar (Except.ok (wellFormedInput
        [([Seg.normal "dir", Seg.normal "a"], [104, 105])] [[Seg.normal "dir"]]))).1.is_dir
        [Seg.normal "zzz"] = Except.error (Err.notFound [Seg.normal "zzz"]) :=
  ⟨(C4_decode_characterization [([Seg.normal "dir", Seg.normal "a"], [104, 105])]
      [[Seg.normal "dir"]] (by decide) (by decide) (by decide) (by decide)).1,
   ((C4_decode_characterization [([Seg.normal "dir", Seg.normal "a"], [104, 105])]
      [[Seg.normal "dir"]] (by decide) (by decide) (by decide) (by decide)).2.1
      ([Seg.normal "dir", Seg.normal "a"], [104, 105]) (by decide)).1,
   ((C4_decode_characterization [([Seg.normal "dir", Seg.normal "a"], [104, 105])]
      [[Seg.normal "dir"]] (by decide) (by decide) (by decide) (by decide)).2.1
      ([Seg.normal "dir", Seg.normal "a"], [104, 105]) (by decide)).2,
   (C4_decode_characterization [([Seg.normal "dir", Seg.normal "a"], [104, 105])]
      [[Seg.normal "dir"]] (by decide) (by decide) (by decide) (by decide)).2.2.1
      [Seg.normal "dir"] (by decide),
   ((C4_decode_characterization [([Seg.normal "dir", Seg.normal "a"], [104, 105])]
      [[Seg.normal "dir"]] (by decide) (by decide) (by decide) (by decide)).2.2.2
      [Seg.normal "zzz"] (by decide) (by decide)).1,
   ((C4_decode_characterization [([Seg.normal "dir", Seg.normal "a"], [104, 105])]
      [[Seg.normal "dir"]] (by decide) (by decide) (by decide) (by decide)).2.2.2
      [Seg.normal "zzz"] (by decide) (by decide)).2⟩

/-- C5: last-write-wins. When sources A and B both define path `p` (with
contents `ca` and `cb`, the values of their respective last regular entry
at `p`), appending A and then B leaves `read_file p` equal to B's content,
the overwriting merge succeeds without error, and the same later-entry-wins
rule holds for the single decode pass over the concatenated stream. -/
theorem C5_last_write_wins (itemsA itemsB : List TarItem) (p : Pathb) (ca cb : Bytes)
    (hA : ∀ it ∈ itemsA, itemOk it = true) (hB : ∀ it ∈ itemsB, itemOk it = true)
    (hAdef : lastRegContent itemsA p = some ca)
    (hBdef : lastRegContent itemsB p = some cb)
    (hdiff : ca ≠ cb) :
    ((Archive.new.read_tar (Except.ok itemsA)).1.read_tar (Except.ok itemsB)).2 = none ∧
    ((Archive.new.read_tar (Except.ok itemsA)).1.read_tar (Except.ok itemsB)).1.read_file p =
      Except.ok cb ∧
    (Archive.new.read_tar (Except.ok (itemsA ++ itemsB))).1.read_file p = Except.ok cb := by
  refine ⟨readTarEntries_ok_of_itemOk _ _ hB, ?_, ?_⟩
  · refine read_file_of_filesGet ?_
    show filesGet
      (readTarEntries (readTarEntries Archive.new itemsA).1 itemsB).1.files p = some cb
    rw [filesGet_readTarEntries _ _ _ hB, hBdef, oor_some]
  · refine read_file_of_filesGet ?_
    show filesGet (readTarEntries Archive.new (itemsA ++ itemsB)).1.files p = some cb
    have hAB : ∀ it ∈ itemsA ++ itemsB, itemOk it = true := by
      intro it hit
      rcases List.mem_append.1 hit with h | h
      · exact hA it h
      · exact hB it h
    rw [filesGet_readTarEntries _ _ _ hAB, lastRegContent_append, hBdef, oor_some, oor_some]

/-- C5 witness: the merge law applied to two one-entry streams that both
define path "p" with different contents. -/
theorem C5_witness :
    ((Archive.new.read_tar (Except.ok
        [Except.ok ⟨[Seg.normal "p"], EntryType.regular, [1]⟩])).1.read_tar (Except.ok
        [Except.ok ⟨[Seg.normal "p"], EntryType.regular, [2]⟩])).2 = none ∧
    ((Archive.new.read_tar (Except.ok
        [Except.ok ⟨[Seg.normal "p"], EntryType.regular, [1]⟩])).1.read_tar (Except.ok
        [Except.ok ⟨[Seg.normal "p"], EntryType.regular, [2]⟩])).1.read_file
        [Seg.normal "p"] = Except.ok [2] ∧
    (Archive.new.read_tar (Except.ok
        ([Except.ok ⟨[Seg.normal "p"], EntryType.regular, [1]⟩] ++
         [Except.ok ⟨[Seg.normal "p"], EntryType.regular, [2]⟩]))).1.read_file
        [Seg.normal "p"] = Except.ok [2] :=
  C5_last_write_wins
    [Except.ok ⟨[Seg.normal "p"], EntryType.regular, [1]⟩]
    [Except.ok ⟨[Seg.normal "p"], EntryType.regular, [2]⟩]
    [Seg.normal "p"] [1] [2]
    (by decide) (by decide) (by decide) (by decide) (by decide)

/-- C6: compression round-trip. When inflation of a compressed buffer
yields container bytes that parse to `t`, appending it with the gzipped
kind gives exactly the `(files, dirs)` result (and error) of appending `t`
with the plain kind; when inflation fails, the append fails with the
propagated io error, which is distinct from the container-entry
unsupported-kind error, and the store is untouched. -/
theorem C6_targz_roundtrip (a : Archive) (g : Except Nat TarInput) :
    (∀ t, g = Except.ok t →
      a.append (AppendInput.targz g) = a.append (AppendInput.tar t)) ∧
    (∀ c, g = Except.error c →
      a.append (AppendInput.targz g) = (a, some (Err.ioErr c)) ∧
        ∀ ty, Err.ioErr c ≠ Err.unsupportedEntryKind ty) := by
  constructor
  · rintro t rfl
    rfl
  · rintro c rfl
    exact ⟨rfl, fun ty h => Err.noConfusion h⟩

/-- C6 witness: the round-trip applied to a concrete parsed stream and to
a concrete inflation failure, compared against the symlink entry error. -/
theorem C6_witness :
    Archive.new.append (AppendInput.targz (Except.ok (Except.ok
        [Except.ok ⟨[Seg.normal "a"], EntryType.regular, [1]⟩]))) =
      Archive.new.append (AppendInput.tar (Except.ok
        [Except.ok ⟨[Seg.normal "a"], EntryType.regular, [1]⟩])) ∧
    Archive.new.append (AppendInput.targz (Except.error 5)) =
      (Archive.new, some (Err.ioErr 5)) ∧
    Err.ioErr 5 ≠ Err.unsupportedEntryKind EntryType.symlink :=
  ⟨(C6_targz_roundtrip Archive.new (Except.ok (Except.ok
      [Except.ok ⟨[Seg.normal "a"], EntryType.regular, [1]⟩]))).1
      (Except.ok [Except.ok ⟨[Seg.normal "a"], EntryType.regular, [1]⟩]) rfl,
   ((C6_targz_roundtrip Archive.new (Except.error 5)).2 5 rfl).1,
   ((C6_targz_roundtrip Archive.new (Except.error 5)).2 5 rfl).2 EntryType.symlink⟩

/-- C7: listing locality. Whenever `read_dir p` succeeds, the returned
children are exactly the stored paths — file keys or directory markers —
whose immediate parent is `p`; in particular deeper descendants never
appear, whether or not intermediate directories were recorded. -/
theorem C7_listing_locality (a : Archive) (p : Pathb) (cs : List Pathb)
    (h : a.read_dir p = Except.ok cs) :
    ∀ q, q ∈ cs ↔ (q ∈ keysL a.files ∨ q ∈ a.dirs) ∧ parentOf q = some p := by
  have hcs : cs = childrenOf a p := by
    unfold Archive.read_dir at h
    split at h
    · cases h
    · cases h
    · injection h with h
      exact h.symm
  subst hcs
  intro q
  unfold childrenOf
  rw [List.mem_append, List.mem_filter, List.mem_filter]
  simp only [decide_eq_true_eq]
  tauto

/-- C7 witness: the locality law applied to a store with directory "dir",
file "dir/a", directory "dir/sub" and file "dir/sub/b", listed at "dir"
and evaluated at the deep descendant "dir/sub/b" (which is stored but, its
immediate parent being "dir/sub", is excluded from the listing). -/
theorem C7_witness :
    [Seg.normal "dir", Seg.normal "sub", Seg.normal "b"] ∈
        ([[Seg.normal "dir", Seg.normal "a"], [Seg.normal "dir", Seg.normal "sub"]] :
          List Pathb) ↔
      ([Seg.normal "dir", Seg.normal "sub", Seg.normal "b"] ∈
          keysL (Archive.new.append (AppendInput.tar (Except.ok
            [Except.ok ⟨[Seg.normal "dir"], EntryType.directory, []⟩,
             Except.ok ⟨[Seg.normal "dir", Seg.normal "a"], EntryType.regular, [1]⟩,
             Except.ok ⟨[Seg.normal "dir", Seg.normal "sub"], EntryType.directory, []⟩,
             Except.ok ⟨[Seg.normal "dir", Seg.normal "sub", Seg.normal "b"],
               EntryType.regular, [2]⟩]))).1.files ∨
        [Seg.normal "dir", Seg.normal "sub", Seg.normal "b"] ∈
          (Archive.new.append (AppendInput.tar (Except.ok
            [Except.ok ⟨[Seg.normal "dir"], EntryType.directory, []⟩,
             Except.ok ⟨[Seg.normal "dir", Seg.normal "a"], EntryType.regular, [1]⟩,
             Except.ok ⟨[Seg.normal "dir", Seg.normal "sub"], EntryType.directory, []⟩,
             Except.ok ⟨[Seg.normal "dir", Seg.normal "sub", Seg.normal "b"],
               EntryType.regular, [2]⟩]))).1.dirs) ∧
      parentOf [Seg.normal "dir", Seg.normal "sub", Seg.normal "b"] =
        some [Seg.normal "dir"] :=
  C7_listing_locality
    (Archive.new.append (AppendInput.tar (Except.ok
      [Except.ok ⟨[Seg.normal "dir"], EntryType.directory, []⟩,
       Except.ok ⟨[Seg.normal "dir", Seg.normal "a"], EntryType.regular, [1]⟩,
       Except.ok ⟨[Seg.normal "dir", Seg.normal "sub"], EntryType.directory, []⟩,
       Except.ok ⟨[Seg.normal "dir", Seg.normal "sub", Seg.normal "b"],
         EntryType.regular, [2]⟩]))).1
    [Seg.normal "dir"]
    [[Seg.normal "dir", Seg.normal "a"], [Seg.normal "dir", Seg.normal "sub"]]
    rfl
    [Seg.normal "dir", Seg.normal "sub", Seg.normal "b"]

/-- C8: path normalization. An entry named with a leading "./" segment is
processed exactly like the entry named by the stripped path, so "./a/b"
and "a/b" produce indistinguishable stores; and an entry whose normalized
path is empty is discarded entirely, contributing to neither the files map
nor the dirs set. -/
theorem C8_normalization (a : Archive) (e : TarEntry) (rest : List TarItem) (p : Pathb)
    (hnd : p.head? ≠ some Seg.curDir) :
    readTarEntries a (Except.ok { e with path := Seg.curDir :: p } :: rest) =
      readTarEntries a (Except.ok { e with path := p } :: rest) ∧
    (p = [] → readTarEntries a (Except.ok { e with path := Seg.curDir :: p } :: rest) =
      readTarEntries a rest) := by
  constructor
  · exact readTarEntries_cons_congr a _ _ rest (stripDot_eq_self hnd).symm rfl rfl
  · intro hp
    subst hp
    exact readTarEntries_cons_skip
      (show stripDot ({ e with path := [Seg.curDir] } : TarEntry).path = [] from rfl) a rest

/-- C8 witness: normalization applied to the regular entry "./a" versus
"a", and to the entry "./" whose normalized path is empty. -/
theorem C8_witness :
    readTarEntries Archive.new
        [Except.ok ⟨[Seg.curDir, Seg.normal "a"], EntryType.regular, [9]⟩] =
      readTarEntries Archive.new
        [Except.ok ⟨[Seg.normal "a"], EntryType.regular, [9]⟩] ∧
    readTarEntries Archive.new
        [Except.ok ⟨[Seg.curDir], EntryType.regular, [9]⟩] =
      readTarEntries Archive.new [] :=
  ⟨(C8_normalization Archive.new ⟨[], EntryType.regular, [9]⟩ [] [Seg.normal "a"]
      (by decide)).1,
   (C8_normalization Archive.new ⟨[], EntryType.regular, [9]⟩ [] []
      (by decide)).2 rfl⟩

/-- C10: for every store reachable from `Archive::new()` by appends, the
empty path is neither a files-map key nor a dirs-set member (empty
normalized entries are skipped), so `is_dir` on the empty path fails
NotFound and `read_dir` on the empty path fails (with that propagated
NotFound error): the namespace's top level cannot be enumerated. -/
theorem C10_root_never_listable (a : Archive) (h : Reachable a) :
    [] ∉ keysL a.files ∧ [] ∉ a.dirs ∧
    a.is_dir [] = Except.error (Err.notFound []) ∧
    a.read_dir [] = Except.error (Err.notFound []) := by
  obtain ⟨h1, h2⟩ := reachable_nil_not_stored h
  refine ⟨h1, h2, is_dir_notFound h2 h1, ?_⟩
  simp [Archive.read_dir, is_dir_notFound h2 h1]

/-- C10 witness: the invariant applied to the store reached by one append
holding the file "a" and the directory "d". -/
theorem C10_witness :
    [] ∉ keysL (Archive.new.append (AppendInput.tar (Except.ok
        [Except.ok ⟨[Seg.normal "a"], EntryType.regular, [1]⟩,
         Except.ok ⟨[Seg.normal "d"], EntryType.directory, []⟩]))).1.files ∧
    [] ∉ (Archive.new.append (AppendInput.tar (Except.ok
        [Except.ok ⟨[Seg.normal "a"], EntryType.regular, [1]⟩,
         Except.ok ⟨[Seg.normal "d"], EntryType.directory, []⟩]))).1.dirs ∧
    (Archive.new.append (AppendInput.tar (Except.ok
        [Except.ok ⟨[Seg.normal "a"], EntryType.regular, [1]⟩,
         Except.ok ⟨[Seg.normal "d"], EntryType.directory, []⟩]))).1.is_dir [] =
      Except.error (Err.notFound []) ∧
    (Archive.new.append (AppendInput.tar (Except.ok
        [Except.ok ⟨[Seg.normal "a"], EntryType.regular, [1]⟩,
         Except.ok ⟨[Seg.normal "d"], EntryType.directory, []⟩]))).1.read_dir [] =
      Except.error (Err.notFound []) :=
  C10_root_never_listable
    (Archive.new.append (AppendInput.tar (Except.ok
      [Except.ok ⟨[Seg.normal "a"], EntryType.regular, [1]⟩,
       Except.ok ⟨[Seg.normal "d"], EntryType.directory, []⟩]))).1
    (Reachable.append Archive.new
      (AppendInput.tar (Except.ok
        [Except.ok ⟨[Seg.normal "a"], EntryType.regular, [1]⟩,
         Except.ok ⟨[Seg.normal "d"], EntryType.directory, []⟩]))
      Reachable.new)

end BevyAssetTar
